import Mathlib

/-
Verification of the schedule-resolution core of the kolledj repository
(docker/api/main.py): group-name normalization, week-parity calendar
resolution, the three-tier merge engine (merge_by_group_date / overlay),
and the aggregate queries built on it (get_schedule_by_teacher,
week_overview).

Embedding conventions:
- Strings are compared through their Unicode code points (List Nat),
  matching Python and PostgreSQL semantics for lower/translate/strip.
- Calendar dates are integers counting days since 1970-01-01
  (proleptic Gregorian), so date subtraction is integer subtraction.
- Database tables are lists of row structures; SQL WHERE clauses are
  list filters and ORDER BY is an explicit sort.
- The Python dict by_pair is an association list with dict update
  semantics (replace in place if the key is present, else append).
- Python floor division // is Int.fdiv and Python % is Int.fmod
  (for non-negative right operands they agree with Int.emod).
-/

/-- Code points of a string. -/
def codes (s : String) : List Nat := s.data.map Char.toNat

/-- SQL translate(c, 'ABCEHKMOPTXYabcehkmoptxy', 'АВСЕНКМОРТХУавсенкмортху')
on a single code point: the twelve Latin homoglyph letters, in both cases,
map to their Cyrillic counterparts; every other code point is unchanged. -/
def translateCP (c : Nat) : Nat :=
  if c = 65 then 1040 else if c = 66 then 1042 else if c = 67 then 1057
  else if c = 69 then 1045 else if c = 72 then 1053 else if c = 75 then 1050
  else if c = 77 then 1052 else if c = 79 then 1054 else if c = 80 then 1056
  else if c = 84 then 1058 else if c = 88 then 1061 else if c = 89 then 1059
  else if c = 97 then 1072 else if c = 98 then 1074 else if c = 99 then 1089
  else if c = 101 then 1077 else if c = 104 then 1085 else if c = 107 then 1082
  else if c = 109 then 1084 else if c = 111 then 1086 else if c = 112 then 1088
  else if c = 116 then 1090 else if c = 120 then 1093 else if c = 121 then 1091
  else c

/-- Lowercasing of one code point, covering the alphabets the service
compares (ASCII Latin A-Z, Cyrillic А-Я and Ё); other code points are
left unchanged, as lower() leaves them unchanged or they are deleted by
the normalizer anyway. -/
def lowerCP (c : Nat) : Nat :=
  if 65 ≤ c ∧ c ≤ 90 then c + 32
  else if 1040 ≤ c ∧ c ≤ 1071 then c + 32
  else if c = 1025 then 1105
  else c

/-- Character class kept by regexp_replace(..., '[^0-9a-zа-яё]+', '', 'g'):
ASCII digits, ASCII lowercase Latin letters, Cyrillic а-я and ё. -/
def keepCP (c : Nat) : Bool :=
  (48 ≤ c && c ≤ 57) || (97 ≤ c && c ≤ 122) || (1072 ≤ c && c ≤ 1103) || (c == 1105)

/-- One code point through lower(translate(...)), the order used by
NORMALIZE_SQL_EXPR and by the WHERE clause of merge_by_group_date. -/
def normCP (c : Nat) : Nat := lowerCP (translateCP c)

/-- NORMALIZE_SQL_EXPR on a code-point list:
regexp_replace(lower(translate(s, ...)), '[^0-9a-zа-яё]+', '', 'g'). -/
def normalizeCPs (s : List Nat) : List Nat := (s.map normCP).filter keepCP

/-- Group-name normalization of the service, on strings. -/
def normalizeName (s : String) : List Nat := normalizeCPs (codes s)

/-- Claim C4 characterizes the kept characters as exactly the ASCII digits
and the Cyrillic letters (no Latin letters at all).  This definition follows
those words: lowercase, translate the twelve homoglyph pairs, then delete
everything that is not an ASCII digit and not a Cyrillic letter. -/
def keepClaimC4 (c : Nat) : Bool :=
  (48 ≤ c && c ≤ 57) || (1072 ≤ c && c ≤ 1103) || (c == 1105)

/-- Normalizer as claim C4 words it (lowercase, then translate, then strip
to digits and Cyrillic only). -/
def normalizeClaimC4 (s : List Nat) : List Nat :=
  (s.map fun c => translateCP (lowerCP c)).filter keepClaimC4

/-- Normalizer as amended claim C4 words it: lowercase, translate the
twelve homoglyph pairs, then delete every character that is not an ASCII
digit, not a lowercase Latin letter and not a Cyrillic letter. -/
def normalizeAmendedC4 (s : List Nat) : List Nat :=
  (s.map fun c => translateCP (lowerCP c)).filter keepCP

/-- Python truthiness of an optional string: None and the empty string are
falsy, everything else is truthy. -/
def truthy : Option String → Bool
  | none => false
  | some s => !(s == "")

/-- Python x or d for an optional string x and default d. -/
def pyOr (o : Option String) (d : String) : String :=
  match o with
  | none => d
  | some s => if s == "" then d else s

/-- Python whitespace stripped by str.strip() (the ASCII part of it). -/
def isPySpace (c : Nat) : Bool :=
  c == 32 || c == 9 || c == 10 || c == 11 || c == 12 || c == 13

/-- Strip characters satisfying p from both ends of a list. -/
def stripWith (p : Nat → Bool) (l : List Nat) : List Nat :=
  ((l.dropWhile p).reverse.dropWhile p).reverse

/-- SQL trim(s): strip space characters (code 32) from both ends. -/
def sqlTrim (l : List Nat) : List Nat := stripWith (fun c => c == 32) l

/-- Python str.strip(): strip whitespace from both ends. -/
def pyStrip (l : List Nat) : List Nat := stripWith isPySpace l

/-- Lowercase every code point of a list. -/
def lowerL (l : List Nat) : List Nat := l.map lowerCP

/-- SQL lower(trim(s)). -/
def sqlLowerTrim (s : String) : List Nat := lowerL (sqlTrim (codes s))

/-- SQL lower(s). -/
def sqlLower (s : String) : List Nat := lowerL (codes s)

/-- Python s.strip().lower(), the teacher comparison used post-merge. -/
def pyStripLower (s : String) : List Nat := lowerL (pyStrip (codes s))

/-- Days since 1970-01-01 of a proleptic-Gregorian civil date
(the arithmetic equivalent of Python datetime.date subtraction). -/
def daysFromCivil (y m d : Int) : Int :=
  let y2 := if m ≤ 2 then y - 1 else y
  let era := y2.fdiv 400
  let yoe := y2 - era * 400
  let mp := (m + 9).emod 12
  let doy := (153 * mp + 2).fdiv 5 + d - 1
  let doe := yoe * 365 + yoe.fdiv 4 - yoe.fdiv 100 + doy
  era * 146097 + doe - 719468

/-- Civil date (year, month, day) of a days-since-1970-01-01 count. -/
def civilFromDays (z : Int) : Int × Int × Int :=
  let z2 := z + 719468
  let era := z2.fdiv 146097
  let doe := z2 - era * 146097
  let yoe := (doe - doe.fdiv 1460 + doe.fdiv 36524 - doe.fdiv 146096).fdiv 365
  let y := yoe + era * 400
  let doy := doe - (365 * yoe + yoe.fdiv 4 - yoe.fdiv 100)
  let mp := (5 * doy + 2).fdiv 153
  let d := doy - (153 * mp + 2).fdiv 5 + 1
  let m := mp + (if mp < 10 then 3 else -9)
  (y + (if m ≤ 2 then 1 else 0), m, d)

/-- ISO weekday of a day count, Monday = 1 .. Sunday = 7
(Python date.isoweekday()). -/
def isoWeekday (z : Int) : Int := (z + 3).fmod 7 + 1

/-- ISO calendar week number of a day count
(Python date.isocalendar()[1]): the week number of the Thursday of the
date's Monday-to-Sunday week, counted within that Thursday's year. -/
def isoWeekNumber (z : Int) : Int :=
  let th := z + 4 - isoWeekday z
  let y := (civilFromDays th).1
  (th - daysFromCivil y 1 1).fdiv 7 + 1

/-- Gregorian leap-year test. -/
def isLeapYear (y : Int) : Bool :=
  (y.emod 4 == 0 && y.emod 100 != 0) || y.emod 400 == 0

/-- Length of a month. -/
def daysInMonth (y m : Int) : Int :=
  if m == 2 then (if isLeapYear y then 29 else 28)
  else if m == 4 || m == 6 || m == 9 || m == 11 then 30 else 31

/-- Digit test on a code point. -/
def isDigitCP (c : Nat) : Bool := 48 ≤ c && c ≤ 57

/-- Numeric value of a digit code point. -/
def digitVal (c : Nat) : Nat := c - 48

/-- Python datetime.date.fromisoformat for the canonical YYYY-MM-DD form:
returns the day count of a well-formed calendar date and none on malformed
input (the model of the ValueError the code catches). -/
def parseISODate (s : String) : Option Int :=
  match codes s with
  | [y1, y2, y3, y4, h1, m1, m2, h2, d1, d2] =>
    if isDigitCP y1 && isDigitCP y2 && isDigitCP y3 && isDigitCP y4 &&
        h1 == 45 && isDigitCP m1 && isDigitCP m2 && h2 == 45 &&
        isDigitCP d1 && isDigitCP d2 then
      let y : Int := ((1000 * digitVal y1 + 100 * digitVal y2 +
        10 * digitVal y3 + digitVal y4 : Nat) : Int)
      let m : Int := ((10 * digitVal m1 + digitVal m2 : Nat) : Int)
      let d : Int := ((10 * digitVal d1 + digitVal d2 : Nat) : Int)
      if 1 ≤ y && 1 ≤ m && m ≤ 12 && 1 ≤ d && d ≤ daysInMonth y m then
        some (daysFromCivil y m d)
      else none
    else none
  | _ => none

/-- Decimal digit character of n (n < 10). -/
def digitChar (n : Nat) : Char := Char.ofNat (48 + n % 10)

/-- Four-digit zero-padded decimal rendering. -/
def pad4 (n : Int) : String :=
  let k := n.toNat
  String.mk [digitChar (k / 1000), digitChar (k / 100), digitChar (k / 10), digitChar k]

/-- Two-digit zero-padded decimal rendering. -/
def pad2 (n : Int) : String :=
  let k := n.toNat
  String.mk [digitChar (k / 10), digitChar k]

/-- Python date.isoformat(): YYYY-MM-DD. -/
def isoformat (z : Int) : String :=
  let c := civilFromDays z
  pad4 c.1 ++ "-" ++ pad2 c.2.1 ++ "-" ++ pad2 c.2.2

/-- ISO-week-number fallback parity:
'even' if d.isocalendar()[1] % 2 == 0 else 'odd'. -/
def isoParity (z : Int) : String :=
  if (isoWeekNumber z).emod 2 == 0 then "even" else "odd"

/-- Week parity as computed identically in get_schedule, week_overview and
get_schedule_by_teacher: if the ODD_WEEK_ANCHOR environment value is a
truthy string that parses as a date, the week offset from the anchor
decides the parity (anchor week odd); otherwise, including on a parse
failure, the ISO week number parity is used. -/
def parityFor (anchor : Option String) (z : Int) : String :=
  if truthy anchor then
    match parseISODate (anchor.getD "") with
    | some a => if ((z - a).fdiv 7).fmod 2 == 0 then "odd" else "even"
    | none => isoParity z
  else isoParity z



/-- Row of the weekday_schedule table (the base tier).  Nullable SQL text
columns are optional strings; time_start and time_end stand for the
to_char(...) renderings the query produces. -/
structure BaseRow where
  id : Int
  group_name : String
  weekday : Int
  pair_number : Int
  time_start : Option String
  time_end : Option String
  subject : Option String
  teacher : Option String
  room : Option String
  week_type : Option String
deriving DecidableEq, Repr

/-- Row of the weekly_edits table. -/
structure WeeklyRow where
  group_name : String
  day_of_week : Int
  pair_number : Int
  week_type : String
  subject : Option String
  teacher : Option String
  room : Option String
  time_start : Option String
  time_end : Option String
  deleted : Bool
deriving DecidableEq, Repr

/-- Row of the once_edits table; edit_date is a day count. -/
structure OnceRow where
  group_name : String
  edit_date : Int
  pair_number : Int
  subject : Option String
  teacher : Option String
  room : Option String
  time_start : Option String
  time_end : Option String
  deleted : Bool
deriving DecidableEq, Repr

/-- Columns the two edit queries project, the shape overlay consumes. -/
structure EditRow where
  pair_number : Int
  subject : Option String
  teacher : Option String
  room : Option String
  time_start : Option String
  time_end : Option String
  deleted : Bool
deriving DecidableEq, Repr

/-- Projection of a weekly edit onto the overlay columns. -/
def WeeklyRow.toEdit (e : WeeklyRow) : EditRow :=
  ⟨e.pair_number, e.subject, e.teacher, e.room, e.time_start, e.time_end, e.deleted⟩

/-- Projection of a once edit onto the overlay columns. -/
def OnceRow.toEdit (e : OnceRow) : EditRow :=
  ⟨e.pair_number, e.subject, e.teacher, e.room, e.time_start, e.time_end, e.deleted⟩

/-- Value stored in by_pair and returned by merge_by_group_date
(the ResolvedSession of the spec). -/
structure Entry where
  id : Int
  group_name : String
  weekday : Int
  pair_number : Int
  time_start : String
  time_end : String
  subject : String
  teacher : String
  room : String
  week_type : String
deriving DecidableEq, Repr

/-- Database state: the three tables the merge engine reads. -/
structure DB where
  weekday_schedule : List BaseRow
  weekly_edits : List WeeklyRow
  once_edits : List OnceRow

/-- Lookup in an association list keyed by pair number
(Python dict read by_pair.get(p)). -/
def lookupPair (p : Int) : List (Int × Entry) → Option Entry
  | [] => none
  | (k, v) :: rest => if k = p then some v else lookupPair p rest

/-- Update of an association list keyed by pair number
(Python dict write by_pair[p] = v: replace in place, else append). -/
def upsertPair (p : Int) (v : Entry) : List (Int × Entry) → List (Int × Entry)
  | [] => [(p, v)]
  | (k, w) :: rest =>
    if k = p then (k, v) :: rest else (k, w) :: upsertPair p v rest

/-- Insertion into a list sorted by le, before the first element not
le-below the inserted one. -/
def insertLe (le : α → α → Bool) (a : α) : List α → List α
  | [] => [a]
  | b :: l => if le a b then a :: b :: l else b :: insertLe le a l

/-- Insertion sort by le (the model of Python sorted / list.sort; on the
distinct keys it is applied to, every correct sort agrees). -/
def sortLe (le : α → α → Bool) : List α → List α
  | [] => []
  | a :: l => insertLe le a (sortLe le l)

/-- Final step of merge_by_group_date:
[by_pair[k] for k in sorted(by_pair.keys()) if k > 0]. -/
def finalize (m : List (Int × Entry)) : List Entry :=
  ((sortLe (fun a b => a ≤ b) (m.map (fun kv : Int × Entry => kv.1))).filter
    (fun k => 0 < k)).filterMap (fun k => lookupPair k m)

/-- WHERE clause of the base query: normalized group name equal to the
normalized requested group, exact weekday, and week_type (null coalesced
to 'all') equal to 'all' or to the parity. -/
def baseMatches (group : String) (weekday : Int) (parity : String) (s : BaseRow) : Bool :=
  normalizeName s.group_name == normalizeName group && s.weekday == weekday &&
    (s.week_type.getD "all" == "all" || s.week_type.getD "all" == parity)

/-- Base query of merge_by_group_date: filtered weekday_schedule rows,
ordered by pair_number ascending. -/
def readBase (db : DB) (group : String) (weekday : Int) (parity : String) : List BaseRow :=
  sortLe (fun a b => a.pair_number ≤ b.pair_number)
    (db.weekday_schedule.filter (baseMatches group weekday parity))

/-- WHERE clause of the weekly query: exact group, exact day, week_type
equal to 'all' or to the parity. -/
def weeklyMatches (group : String) (weekday : Int) (parity : String) (e : WeeklyRow) : Bool :=
  e.group_name == group && e.day_of_week == weekday &&
    (e.week_type == "all" || e.week_type == parity)

/-- Weekly query of merge_by_group_date (no ORDER BY in the source; rows
come in table order). -/
def readWeekly (db : DB) (group : String) (weekday : Int) (parity : String) : List EditRow :=
  (db.weekly_edits.filter (weeklyMatches group weekday parity)).map WeeklyRow.toEdit

/-- WHERE clause of the once query: exact group and exact date. -/
def onceMatches (group : String) (d : Int) (e : OnceRow) : Bool :=
  e.group_name == group && e.edit_date == d

/-- Once query of merge_by_group_date. -/
def readOnce (db : DB) (group : String) (d : Int) : List EditRow :=
  (db.once_edits.filter (onceMatches group d)).map OnceRow.toEdit

/-- Seeding of by_pair from a base row: the SQL query already coalesces
subject/teacher/room/week_type to ''/'all', and the Python dict literal
applies `or` defaults again on top. -/
def entryOfBase (r : BaseRow) : Entry :=
  { id := r.id
    group_name := r.group_name
    weekday := r.weekday
    pair_number := r.pair_number
    time_start := pyOr r.time_start ""
    time_end := pyOr r.time_end ""
    subject := pyOr (some (r.subject.getD "")) ""
    teacher := pyOr (some (r.teacher.getD "")) ""
    room := pyOr (some (r.room.getD "")) ""
    week_type := pyOr (some (r.week_type.getD "all")) "all" }

/-- Placeholder entry synthesized by overlay when no entry occupies the
edit's pair number. -/
def placeholder (group : String) (weekday : Int) (p : Int) : Entry :=
  { id := 0, group_name := group, weekday := weekday, pair_number := p
    time_start := "", time_end := "", subject := "", teacher := "", room := ""
    week_type := "all" }

/-- Entry stored back by one iteration of the overlay loop of
merge_by_group_date: fetch the previous entry at the edit's pair number
(or synthesize a placeholder), then either blank subject/teacher/room for
a deleted edit (still taking truthy time fields) or overwrite exactly the
truthy fields. -/
def overlayEntry (group : String) (weekday : Int) (m : List (Int × Entry)) (e : EditRow) :
    Entry :=
  let p := e.pair_number
  let prev := (lookupPair p m).getD (placeholder group weekday p)
  if e.deleted then
    let cleared := { prev with subject := "", teacher := "", room := "" }
    let cleared :=
      if truthy e.time_start then { cleared with time_start := e.time_start.getD "" }
      else cleared
    if truthy e.time_end then { cleared with time_end := e.time_end.getD "" }
    else cleared
  else
    let upd := if truthy e.subject then { prev with subject := e.subject.getD "" } else prev
    let upd := if truthy e.teacher then { upd with teacher := e.teacher.getD "" } else upd
    let upd := if truthy e.room then { upd with room := e.room.getD "" } else upd
    let upd :=
      if truthy e.time_start then { upd with time_start := e.time_start.getD "" } else upd
    if truthy e.time_end then { upd with time_end := e.time_end.getD "" } else upd

/-- One iteration of the overlay loop: both branches of the source end by
storing the computed entry at the edit's pair number (the deleted branch
stores and then conditionally mutates the stored times, which composes to
a single store of overlayEntry). -/
def overlay (group : String) (weekday : Int) (m : List (Int × Entry)) (e : EditRow) :
    List (Int × Entry) :=
  upsertPair e.pair_number (overlayEntry group weekday m e) m

/-- The merge engine merge_by_group_date(conn, group, d, weekday, parity):
seed by_pair from the base rows, overlay the weekly edits, overlay the
once edits, then return the positive pair numbers in ascending order. -/
def merge_by_group_date (db : DB) (group : String) (d : Int) (weekday : Int)
    (parity : String) : List Entry :=
  let m0 := (readBase db group weekday parity).foldl
    (fun m r => upsertPair r.pair_number (entryOfBase r) m) []
  let m1 := (readWeekly db group weekday parity).foldl (overlay group weekday) m0
  let m2 := (readOnce db group d).foldl (overlay group weekday) m1
  finalize m2

/-- Error kinds of the embedded endpoints: exactly-one-of-group-or-teacher
violations versus unparseable dates. -/
inductive ApiError
  | badParams
  | badDate
deriving DecidableEq, Repr

/-- Endpoint /api/schedule: parse the date, resolve weekday and parity,
run the merge engine. -/
def get_schedule (db : DB) (anchor : Option String) (group : String) (dateStr : String) :
    Except ApiError (List Entry) :=
  match parseISODate dateStr with
  | none => Except.error ApiError.badDate
  | some d =>
    Except.ok (merge_by_group_date db group d (isoWeekday d) (parityFor anchor d))

/-- Base-tier candidate filter of the teacher queries: weekday and parity
as in the base read, and lower(trim(teacher)) = lower(requested); a NULL
teacher column never compares equal in SQL. -/
def baseCandidate (teacher : String) (weekday : Int) (parity : String) (s : BaseRow) : Bool :=
  s.weekday == weekday &&
    (s.week_type.getD "all" == "all" || s.week_type.getD "all" == parity) &&
    (match s.teacher with
     | none => false
     | some t => sqlLowerTrim t == sqlLower teacher)

/-- Weekly-tier candidate filter: day and parity as in the weekly read,
and lower(COALESCE(teacher,'')) = lower(requested). -/
def weeklyCandidate (teacher : String) (weekday : Int) (parity : String) (e : WeeklyRow) : Bool :=
  e.day_of_week == weekday && (e.week_type == "all" || e.week_type == parity) &&
    sqlLower (e.teacher.getD "") == sqlLower teacher

/-- Once-tier candidate filter: exact date and
lower(COALESCE(teacher,'')) = lower(requested). -/
def onceCandidate (teacher : String) (d : Int) (e : OnceRow) : Bool :=
  e.edit_date == d && sqlLower (e.teacher.getD "") == sqlLower teacher

/-- Candidate group set of the teacher queries: distinct group names from
the three tiers.  The source collects them in a Python set whose iteration
order is unspecified; the model fixes first-appearance order, which the
final explicit sort (or counting) makes immaterial. -/
def candidateGroups (db : DB) (teacher : String) (d : Int) (weekday : Int)
    (parity : String) : List String :=
  (((db.weekday_schedule.filter (baseCandidate teacher weekday parity)).map
      (fun s => s.group_name)) ++
    ((db.weekly_edits.filter (weeklyCandidate teacher weekday parity)).map
      (fun e => e.group_name)) ++
    ((db.once_edits.filter (onceCandidate teacher d)).map
      (fun e => e.group_name))).dedup

/-- Lexicographic order on code-point lists: Python string comparison. -/
def codesLe : List Nat → List Nat → Bool
  | [], _ => true
  | _ :: _, [] => false
  | a :: l, b :: m => if a < b then true else if b < a then false else codesLe l m

/-- Sort key comparison of get_schedule_by_teacher:
(x.get("pair_number") or 0, x.get("time_start") or "") compared as a
Python tuple.  Both `or` defaults are identities here: `or 0` on an int
and `or ""` on a string fix only the values 0 and "", to themselves. -/
def entryKeyLe (x y : Entry) : Bool :=
  x.pair_number < y.pair_number ||
    (x.pair_number == y.pair_number && codesLe (codes x.time_start) (codes y.time_start))

/-- Endpoint /api/schedule_by_teacher: parse the date, resolve weekday and
parity, build the candidate group set, run the merge engine per group,
filter post-merge by the stripped lowercased teacher, sort by
(pair_number, time_start). -/
def get_schedule_by_teacher (db : DB) (anchor : Option String) (teacher : String)
    (dateStr : String) : Except ApiError (List Entry) :=
  match parseISODate dateStr with
  | none => Except.error ApiError.badDate
  | some d =>
    let weekday := isoWeekday d
    let parity := parityFor anchor d
    let tn := pyStripLower teacher
    if tn == [] then Except.ok []
    else
      let gs := candidateGroups db teacher d weekday parity
      let merged := gs.flatMap (fun g => merge_by_group_date db g d weekday parity)
      let filtered := merged.filter (fun it => pyStripLower it.teacher == tn)
      Except.ok (sortLe entryKeyLe filtered)

/-- Endpoint /api/week_overview: reject unless exactly one of group and
teacher is truthy (checked before the date parse), then parse the monday
date and produce one (date, count) row per day of the 7-day window, with
the per-day weekday, parity and merge identical to the single-day path. -/
def week_overview (db : DB) (anchor : Option String) (group teacher : Option String)
    (monday : String) : Except ApiError (List (String × Int)) :=
  if truthy group == truthy teacher then Except.error ApiError.badParams
  else
    match parseISODate monday with
    | none => Except.error ApiError.badDate
    | some m =>
      Except.ok ((List.range 7).map (fun (i : Nat) =>
        let d := m + (i : Int)
        let weekday := isoWeekday d
        let parity := parityFor anchor d
        if truthy group then
          (isoformat d, (merge_by_group_date db (group.getD "") d weekday parity).length)
        else
          let t := teacher.getD ""
          let tn := pyStripLower t
          let gs := candidateGroups db t d weekday parity
          let total := gs.foldl (fun acc g =>
            acc + ((merge_by_group_date db g d weekday parity).filter
              (fun it => pyStripLower it.teacher == tn)).length) 0
          (isoformat d, total)))

/-- Test fixture for the precedence scenario of the spec: a base session
at pair 3 with subject Math, a weekly all-weeks edit at pair 3 with
subject Physics, a once edit at pair 3 with subject Chemistry dated
2024-01-01 (day count 19723, a Monday). -/
def dbPrecedence : DB :=
  ⟨[⟨7, "g1", 1, 3, some "09:00", some "10:30", some "Math", some "Ivanov", some "101",
      some "all"⟩],
   [⟨"g1", 1, 3, "all", some "Physics", none, none, none, none, false⟩],
   [⟨"g1", 19723, 3, some "Chemistry", none, none, none, none, false⟩]⟩

/-- Test fixture for the partial-override scenario: a base session with
subject Math and teacher Ivanov, and a weekly edit supplying only room
204 (all other override fields null). -/
def dbPartial : DB :=
  ⟨[⟨7, "g1", 1, 3, some "09:00", some "10:30", some "Math", some "Ivanov", some "101",
      some "all"⟩],
   [⟨"g1", 1, 3, "all", none, none, some "204", none, none, false⟩],
   []⟩

/-- Test fixture for the deletion scenario: a base session with times
09:00-10:30 and a deleted once edit supplying no time fields. -/
def dbDeleted : DB :=
  ⟨[⟨7, "g1", 1, 3, some "09:00", some "10:30", some "Math", some "Ivanov", some "101",
      some "all"⟩],
   [],
   [⟨"g1", 19723, 3, none, none, none, none, none, true⟩]⟩

/-- Test fixture for the teacher reassignment scenario: the base session
at pair 1 lists teacher Ivanov, and a once edit reassigns the slot to
teacher Petrov for 2024-01-01. -/
def dbTeacher : DB :=
  ⟨[⟨7, "g1", 1, 1, some "09:00", some "10:30", some "Math", some "Ivanov", some "101",
      some "all"⟩],
   [],
   [⟨"g1", 19723, 1, none, some "Petrov", none, none, none, false⟩]⟩

/-- Test fixture for the vacant-slot deletion scenario: a deleted once
edit at pair 2 with a time range but no base or weekly row at that slot. -/
def dbVacant : DB :=
  ⟨[], [], [⟨"g1", 19723, 2, none, none, none, some "09:00", some "10:30", true⟩]⟩

/-- Empty database. -/
def dbEmpty : DB := ⟨[], [], []⟩

theorem mem_insertLe {le : α → α → Bool} {a x : α} {l : List α} :
    x ∈ insertLe le a l ↔ x = a ∨ x ∈ l := by
  induction l with
  | nil => simp [insertLe]
  | cons b l ih =>
    by_cases hab : le a b = true
    · simp [insertLe, hab, List.mem_cons]
    · simp only [insertLe, hab, if_neg, Bool.false_eq_true, not_false_iff, List.mem_cons, ih]
      tauto

theorem perm_insertLe (le : α → α → Bool) (a : α) (l : List α) :
    (insertLe le a l).Perm (a :: l) := by
  induction l with
  | nil => exact List.Perm.refl _
  | cons b l ih =>
    by_cases hab : le a b = true
    · simp [insertLe, hab]
    · simp only [insertLe, hab, if_neg]
      exact (ih.cons b).trans (List.Perm.swap a b l)

theorem perm_sortLe (le : α → α → Bool) (l : List α) : (sortLe le l).Perm l := by
  induction l with
  | nil => exact List.Perm.refl _
  | cons a l ih => exact (perm_insertLe le a (sortLe le l)).trans (ih.cons a)

theorem pairwise_insertLe {le : α → α → Bool}
    (htot : ∀ x y, le x y = false → le y x = true)
    (htrans : ∀ x y z, le x y = true → le y z = true → le x z = true)
    {a : α} {l : List α} (h : l.Pairwise (fun x y => le x y = true)) :
    (insertLe le a l).Pairwise (fun x y => le x y = true) := by
  induction l with
  | nil => simp [insertLe]
  | cons b l ih =>
    rw [List.pairwise_cons] at h
    obtain ⟨hb, hl⟩ := h
    by_cases hab : le a b = true
    · simp only [insertLe, hab, if_pos]
      refine List.Pairwise.cons ?_ (List.Pairwise.cons hb hl)
      intro c hc
      rcases List.mem_cons.mp hc with rfl | hc
      · exact hab
      · exact htrans a b c hab (hb c hc)
    · simp only [insertLe, hab, if_neg, Bool.false_eq_true, not_false_iff]
      refine List.Pairwise.cons ?_ (ih hl)
      intro c hc
      rcases mem_insertLe.mp hc with rfl | hc
      · exact htot _ _ ((Bool.not_eq_true _).mp hab)
      · exact hb c hc

theorem pairwise_sortLe {le : α → α → Bool}
    (htot : ∀ x y, le x y = false → le y x = true)
    (htrans : ∀ x y z, le x y = true → le y z = true → le x z = true)
    (l : List α) : (sortLe le l).Pairwise (fun x y => le x y = true) := by
  induction l with
  | nil => simp [sortLe]
  | cons a l ih => exact pairwise_insertLe htot htrans ih

theorem lookupPair_upsertPair (p q : Int) (v : Entry) (m : List (Int × Entry)) :
    lookupPair p (upsertPair q v m) = if q = p then some v else lookupPair p m := by
  induction m with
  | nil => simp [upsertPair, lookupPair]
  | cons kv m ih =>
    obtain ⟨k, w⟩ := kv
    by_cases hkq : k = q
    · subst hkq
      simp only [upsertPair, if_pos rfl, lookupPair]
      by_cases hkp : k = p <;> simp [hkp]
    · simp only [upsertPair, if_neg hkq, lookupPair]
      by_cases hkp : k = p
      · subst hkp
        have : ¬ q = k := fun h => hkq h.symm
        simp [this]
      · simp [hkp, ih]

theorem mem_of_lookupPair {p : Int} {m : List (Int × Entry)} {v : Entry}
    (h : lookupPair p m = some v) : (p, v) ∈ m := by
  induction m with
  | nil => simp [lookupPair] at h
  | cons kv m ih =>
    obtain ⟨k, w⟩ := kv
    by_cases hkp : k = p
    · subst hkp
      have hw : w = v := by simpa [lookupPair] using h
      subst hw
      exact List.mem_cons_self _ _
    · simp only [lookupPair, if_neg hkp] at h
      exact List.mem_cons_of_mem _ (ih h)

theorem lookupPair_isSome_of_mem {p : Int} {v : Entry} {m : List (Int × Entry)}
    (h : (p, v) ∈ m) : (lookupPair p m).isSome := by
  induction m with
  | nil => simp at h
  | cons kv m ih =>
    obtain ⟨k, w⟩ := kv
    by_cases hkp : k = p
    · simp [lookupPair, hkp]
    · rcases List.mem_cons.mp h with heq | hm
      · exact absurd (congrArg Prod.fst heq).symm hkp
      · simpa [lookupPair, hkp] using ih hm

theorem mem_upsertPair {p : Int} {v : Entry} {m : List (Int × Entry)} {kv : Int × Entry}
    (h : kv ∈ upsertPair p v m) : kv = (p, v) ∨ kv ∈ m := by
  induction m with
  | nil => simpa [upsertPair] using h
  | cons hd m ih =>
    obtain ⟨k, w⟩ := hd
    by_cases hkp : k = p
    · subst hkp
      rw [show upsertPair k v ((k, w) :: m) = (k, v) :: m from by simp [upsertPair]] at h
      rcases List.mem_cons.mp h with rfl | hm
      · exact Or.inl rfl
      · exact Or.inr (List.mem_cons_of_mem _ hm)
    · simp only [upsertPair, if_neg hkp] at h
      rcases List.mem_cons.mp h with rfl | hm
      · exact Or.inr (List.mem_cons_self _ _)
      · rcases ih hm with h1 | h1
        · exact Or.inl h1
        · exact Or.inr (List.mem_cons_of_mem _ h1)

theorem keys_upsertPair (p : Int) (v : Entry) (m : List (Int × Entry)) (q : Int) :
    q ∈ (upsertPair p v m).map (fun kv => kv.1) ↔
      q = p ∨ q ∈ m.map (fun kv => kv.1) := by
  induction m with
  | nil => simp [upsertPair]
  | cons hd m ih =>
    obtain ⟨k, w⟩ := hd
    by_cases hkp : k = p
    · subst hkp
      rw [show upsertPair k v ((k, w) :: m) = (k, v) :: m from by simp [upsertPair]]
      simp only [List.map_cons, List.mem_cons]
      tauto
    · simp only [upsertPair, if_neg hkp, List.map_cons, List.mem_cons, ih]
      tauto

theorem keysNodup_upsertPair {p : Int} {v : Entry} {m : List (Int × Entry)}
    (h : (m.map (fun kv => kv.1)).Nodup) :
    ((upsertPair p v m).map (fun kv => kv.1)).Nodup := by
  induction m with
  | nil => simp [upsertPair]
  | cons hd m ih =>
    obtain ⟨k, w⟩ := hd
    simp only [List.map_cons, List.nodup_cons] at h
    obtain ⟨hk, hm⟩ := h
    by_cases hkp : k = p
    · subst hkp
      rw [show upsertPair k v ((k, w) :: m) = (k, v) :: m from by simp [upsertPair]]
      rw [List.map_cons, List.nodup_cons]
      exact ⟨hk, hm⟩
    · simp only [upsertPair, if_neg hkp, List.map_cons, List.nodup_cons]
      refine ⟨?_, ih hm⟩
      intro hmem
      rcases (keys_upsertPair p v m k).mp hmem with rfl | hmem2
      · exact hkp rfl
      · exact hk hmem2

theorem overlay_shape (g : String) (wd : Int) (m : List (Int × Entry)) (e : EditRow) :
    overlay g wd m e = upsertPair e.pair_number (overlayEntry g wd m e) m := rfl

theorem lookupPair_overlay_ne {p : Int} (g : String) (wd : Int) (m : List (Int × Entry))
    (e : EditRow) (hne : e.pair_number ≠ p) :
    lookupPair p (overlay g wd m e) = lookupPair p m := by
  rw [overlay_shape, lookupPair_upsertPair, if_neg hne]

theorem lookupPair_overlay_self (g : String) (wd : Int) (m : List (Int × Entry))
    (e : EditRow) :
    lookupPair e.pair_number (overlay g wd m e) = some (overlayEntry g wd m e) := by
  rw [overlay_shape, lookupPair_upsertPair, if_pos rfl]

theorem lookupPair_overlay_isSome {p : Int} (g : String) (wd : Int) (m : List (Int × Entry))
    (e : EditRow) (h : (lookupPair p m).isSome) :
    (lookupPair p (overlay g wd m e)).isSome := by
  rw [overlay_shape, lookupPair_upsertPair]
  split_ifs with hp
  · rfl
  · exact h

theorem overlayEntry_not_deleted (g : String) (wd : Int) (m : List (Int × Entry))
    (e : EditRow) (hd : e.deleted = false) :
    overlayEntry g wd m e =
      (let prev := (lookupPair e.pair_number m).getD (placeholder g wd e.pair_number)
       { prev with
         subject := if truthy e.subject then e.subject.getD "" else prev.subject
         teacher := if truthy e.teacher then e.teacher.getD "" else prev.teacher
         room := if truthy e.room then e.room.getD "" else prev.room
         time_start := if truthy e.time_start then e.time_start.getD "" else prev.time_start
         time_end := if truthy e.time_end then e.time_end.getD "" else prev.time_end }) := by
  simp only [overlayEntry, hd, Bool.false_eq_true, if_neg, not_false_iff]
  split_ifs <;> rfl

theorem overlayEntry_deleted (g : String) (wd : Int) (m : List (Int × Entry))
    (e : EditRow) (hd : e.deleted = true) :
    overlayEntry g wd m e =
      (let prev := (lookupPair e.pair_number m).getD (placeholder g wd e.pair_number)
       { prev with
         subject := ""
         teacher := ""
         room := ""
         time_start := if truthy e.time_start then e.time_start.getD "" else prev.time_start
         time_end := if truthy e.time_end then e.time_end.getD "" else prev.time_end }) := by
  simp only [overlayEntry, hd, if_pos]
  split_ifs <;> rfl

theorem overlayEntry_pair_number (g : String) (wd : Int) (m : List (Int × Entry))
    (e : EditRow)
    (hwf : ∀ kv ∈ m, (kv.2).pair_number = kv.1) :
    (overlayEntry g wd m e).pair_number = e.pair_number := by
  have hprev : ((lookupPair e.pair_number m).getD
      (placeholder g wd e.pair_number)).pair_number = e.pair_number := by
    cases hlk : lookupPair e.pair_number m with
    | none => rfl
    | some pr =>
      simpa using hwf (e.pair_number, pr) (mem_of_lookupPair hlk)
  cases hd : e.deleted
  · rw [overlayEntry_not_deleted g wd m e hd]
    simpa using hprev
  · rw [overlayEntry_deleted g wd m e hd]
    simpa using hprev

theorem lookup_foldl_overlay_ne {p : Int} (g : String) (wd : Int) (rows : List EditRow)
    (h : ∀ e ∈ rows, e.pair_number ≠ p) (m : List (Int × Entry)) :
    lookupPair p (rows.foldl (overlay g wd) m) = lookupPair p m := by
  induction rows generalizing m with
  | nil => rfl
  | cons r rows ih =>
    rw [List.foldl_cons, ih (fun e he => h e (List.mem_cons_of_mem r he)),
      lookupPair_overlay_ne g wd m r (h r (List.mem_cons_self r rows))]

theorem lookup_foldl_overlay_isSome {p : Int} (g : String) (wd : Int) (rows : List EditRow)
    (m : List (Int × Entry)) (h : (lookupPair p m).isSome) :
    (lookupPair p (rows.foldl (overlay g wd) m)).isSome := by
  induction rows generalizing m with
  | nil => exact h
  | cons r rows ih =>
    exact ih (overlay g wd m r) (lookupPair_overlay_isSome g wd m r h)

theorem lookup_foldl_overlay_isSome_of_mem (g : String) (wd : Int) {rows : List EditRow}
    {e : EditRow} (he : e ∈ rows) (m : List (Int × Entry)) :
    (lookupPair e.pair_number (rows.foldl (overlay g wd) m)).isSome := by
  induction rows generalizing m with
  | nil => simp at he
  | cons r rows ih =>
    rcases List.mem_cons.mp he with rfl | hmem
    · refine lookup_foldl_overlay_isSome g wd rows (overlay g wd m e) ?_
      rw [lookupPair_overlay_self]
      rfl
    · exact ih hmem (overlay g wd m r)

theorem lookup_foldl_overlay_last {p : Int} (g : String) (wd : Int) {rows : List EditRow}
    {e : EditRow} (hf : rows.filter (fun r => r.pair_number == p) = [e])
    (hd : e.deleted = false) (hs : truthy e.subject = true) (m : List (Int × Entry)) :
    ∃ v, lookupPair p (rows.foldl (overlay g wd) m) = some v ∧
      v.subject = e.subject.getD "" := by
  induction rows generalizing m with
  | nil => simp at hf
  | cons r rows ih =>
    by_cases hr : r.pair_number = p
    · rw [List.filter_cons_of_pos (by simpa using hr)] at hf
      obtain ⟨rfl, htail⟩ : r = e ∧ rows.filter (fun r => r.pair_number == p) = [] := by
        constructor
        · exact (List.cons_eq_cons.mp hf).1
        · exact (List.cons_eq_cons.mp hf).2
      rw [List.foldl_cons,
        lookup_foldl_overlay_ne g wd rows
          (fun x hx => by
            have := List.filter_eq_nil_iff.mp htail x hx
            simpa using this)
          (overlay g wd m r)]
      subst hr
      rw [lookupPair_overlay_self, overlayEntry_not_deleted g wd m r hd]
      exact ⟨_, rfl, by simp [hs]⟩
    · rw [List.filter_cons_of_neg (by simpa using hr)] at hf
      rw [List.foldl_cons]
      exact ih hf (overlay g wd m r)

theorem wf_upsertPair {p : Int} {v : Entry} {m : List (Int × Entry)}
    (hv : v.pair_number = p) (hwf : ∀ kv ∈ m, (kv.2).pair_number = kv.1) :
    ∀ kv ∈ upsertPair p v m, (kv.2).pair_number = kv.1 := by
  intro kv hkv
  rcases mem_upsertPair hkv with rfl | hmem
  · exact hv
  · exact hwf kv hmem

theorem wf_overlay (g : String) (wd : Int) {m : List (Int × Entry)} (e : EditRow)
    (hwf : ∀ kv ∈ m, (kv.2).pair_number = kv.1) :
    ∀ kv ∈ overlay g wd m e, (kv.2).pair_number = kv.1 := by
  rw [overlay_shape]
  exact wf_upsertPair (overlayEntry_pair_number g wd m e hwf) hwf

theorem wf_foldl_overlay (g : String) (wd : Int) (rows : List EditRow)
    {m : List (Int × Entry)} (hwf : ∀ kv ∈ m, (kv.2).pair_number = kv.1) :
    ∀ kv ∈ rows.foldl (overlay g wd) m, (kv.2).pair_number = kv.1 := by
  induction rows generalizing m with
  | nil => exact hwf
  | cons r rows ih => exact ih (wf_overlay g wd r hwf)

theorem wf_seed (rows : List BaseRow) {m : List (Int × Entry)}
    (hwf : ∀ kv ∈ m, (kv.2).pair_number = kv.1) :
    ∀ kv ∈ rows.foldl (fun m r => upsertPair r.pair_number (entryOfBase r) m) m,
      (kv.2).pair_number = kv.1 := by
  induction rows generalizing m with
  | nil => exact hwf
  | cons r rows ih => exact ih (wf_upsertPair rfl hwf)

theorem keysNodup_overlay (g : String) (wd : Int) {m : List (Int × Entry)} (e : EditRow)
    (h : (m.map (fun kv => kv.1)).Nodup) :
    ((overlay g wd m e).map (fun kv => kv.1)).Nodup := by
  rw [overlay_shape]
  exact keysNodup_upsertPair h

theorem keysNodup_foldl_overlay (g : String) (wd : Int) (rows : List EditRow)
    {m : List (Int × Entry)} (h : (m.map (fun kv => kv.1)).Nodup) :
    ((rows.foldl (overlay g wd) m).map (fun kv => kv.1)).Nodup := by
  induction rows generalizing m with
  | nil => exact h
  | cons r rows ih => exact ih (keysNodup_overlay g wd r h)

theorem keysNodup_seed (rows : List BaseRow) {m : List (Int × Entry)}
    (h : (m.map (fun kv => kv.1)).Nodup) :
    ((rows.foldl (fun m r => upsertPair r.pair_number (entryOfBase r) m) m).map
      (fun kv => kv.1)).Nodup := by
  induction rows generalizing m with
  | nil => exact h
  | cons r rows ih => exact ih (keysNodup_upsertPair h)

theorem mem_finalize {m : List (Int × Entry)} {x : Entry} :
    x ∈ finalize m ↔ ∃ k, 0 < k ∧ lookupPair k m = some x := by
  unfold finalize
  rw [List.mem_filterMap]
  constructor
  · rintro ⟨k, hk, hlk⟩
    rw [List.mem_filter] at hk
    exact ⟨k, by simpa using hk.2, hlk⟩
  · rintro ⟨k, hk, hlk⟩
    refine ⟨k, List.mem_filter.mpr ⟨?_, by simpa using hk⟩, hlk⟩
    rw [(perm_sortLe _ _).mem_iff, List.mem_map]
    exact ⟨(k, x), mem_of_lookupPair hlk, rfl⟩

theorem pairwise_filterMap_of {α β : Type} (f : α → Option β) {R : α → α → Prop}
    {S : β → β → Prop}
    (hf : ∀ a b x y, R a b → f a = some x → f b = some y → S x y) :
    ∀ {l : List α}, l.Pairwise R → (l.filterMap f).Pairwise S := by
  intro l h
  induction l with
  | nil => simp
  | cons a l ih =>
    rw [List.pairwise_cons] at h
    obtain ⟨ha, hl⟩ := h
    rw [List.filterMap_cons]
    cases hfa : f a with
    | none => exact ih hl
    | some x =>
      refine List.Pairwise.cons ?_ (ih hl)
      intro y hy
      obtain ⟨b, hb, hfb⟩ := List.mem_filterMap.mp hy
      exact hf a b x y (ha b hb) hfa hfb

theorem pairwise_finalize {m : List (Int × Entry)}
    (hwf : ∀ kv ∈ m, (kv.2).pair_number = kv.1)
    (hnd : (m.map (fun kv => kv.1)).Nodup) :
    (finalize m).Pairwise (fun a b => a.pair_number < b.pair_number) := by
  unfold finalize
  have hsorted : (sortLe (fun a b => a ≤ b) (m.map (fun kv => kv.1))).Pairwise
      (fun a b : Int => a ≤ b) := by
    have := @pairwise_sortLe Int (fun a b : Int => a ≤ b)
      (fun x y h => by simpa using Int.le_of_lt (by simpa using h))
      (fun x y z h1 h2 => by
        simp only [decide_eq_true_eq] at h1 h2 ⊢
        omega)
      (m.map (fun kv => kv.1))
    exact this.imp (by simp)
  have hndsort : (sortLe (fun a b => a ≤ b) (m.map (fun kv => kv.1))).Nodup :=
    ((perm_sortLe _ _).nodup_iff).mpr hnd
  have hlt : (sortLe (fun a b => a ≤ b) (m.map (fun kv => kv.1))).Pairwise
      (fun a b : Int => a < b) := by
    have := hsorted.and hndsort
    exact this.imp (fun h => lt_of_le_of_ne h.1 h.2)
  refine pairwise_filterMap_of _ ?_ (hlt.filter _)
  intro a b x y hab hfa hfb
  have hxa : x.pair_number = a := hwf (a, x) (mem_of_lookupPair hfa)
  have hyb : y.pair_number = b := hwf (b, y) (mem_of_lookupPair hfb)
  rw [hxa, hyb]
  exact hab

theorem translateCP_eq_self {c : Nat} (h1 : ¬(65 ≤ c ∧ c ≤ 90)) (h2 : ¬(97 ≤ c ∧ c ≤ 122)) :
    translateCP c = c := by
  unfold translateCP
  rw [if_neg (show ¬c = 65 by omega),
    if_neg (show ¬c = 66 by omega),
    if_neg (show ¬c = 67 by omega),
    if_neg (show ¬c = 69 by omega),
    if_neg (show ¬c = 72 by omega),
    if_neg (show ¬c = 75 by omega),
    if_neg (show ¬c = 77 by omega),
    if_neg (show ¬c = 79 by omega),
    if_neg (show ¬c = 80 by omega),
    if_neg (show ¬c = 84 by omega),
    if_neg (show ¬c = 88 by omega),
    if_neg (show ¬c = 89 by omega),
    if_neg (show ¬c = 97 by omega),
    if_neg (show ¬c = 98 by omega),
    if_neg (show ¬c = 99 by omega),
    if_neg (show ¬c = 101 by omega),
    if_neg (show ¬c = 104 by omega),
    if_neg (show ¬c = 107 by omega),
    if_neg (show ¬c = 109 by omega),
    if_neg (show ¬c = 111 by omega),
    if_neg (show ¬c = 112 by omega),
    if_neg (show ¬c = 116 by omega),
    if_neg (show ¬c = 120 by omega),
    if_neg (show ¬c = 121 by omega)]

theorem lowerCP_eq_self {c : Nat} (h1 : ¬(65 ≤ c ∧ c ≤ 90)) (h2 : ¬(1040 ≤ c ∧ c ≤ 1071))
    (h3 : c ≠ 1025) : lowerCP c = c := by
  unfold lowerCP
  rw [if_neg h1, if_neg h2, if_neg h3]

theorem normCP_comm (c : Nat) : lowerCP (translateCP c) = translateCP (lowerCP c) := by
  by_cases hA : 65 ≤ c ∧ c ≤ 90
  · obtain ⟨hl, hr⟩ := hA
    interval_cases c <;> decide
  · by_cases hB : 97 ≤ c ∧ c ≤ 122
    · obtain ⟨hl, hr⟩ := hB
      interval_cases c <;> decide
    · by_cases hC : 1040 ≤ c ∧ c ≤ 1071
      · obtain ⟨hl, hr⟩ := hC
        interval_cases c <;> decide
      · by_cases hD : c = 1025
        · subst hD
          decide
        · rw [translateCP_eq_self hA hB, lowerCP_eq_self hA hC hD,
            translateCP_eq_self hA hB]

theorem normCP_normCP (c : Nat) : normCP (normCP c) = normCP c := by
  by_cases hA : 65 ≤ c ∧ c ≤ 90
  · obtain ⟨hl, hr⟩ := hA
    interval_cases c <;> decide
  · by_cases hB : 97 ≤ c ∧ c ≤ 122
    · obtain ⟨hl, hr⟩ := hB
      interval_cases c <;> decide
    · by_cases hC : 1040 ≤ c ∧ c ≤ 1071
      · obtain ⟨hl, hr⟩ := hC
        interval_cases c <;> decide
      · by_cases hD : c = 1025
        · subst hD
          decide
        · unfold normCP
          rw [translateCP_eq_self hA hB, lowerCP_eq_self hA hC hD,
            translateCP_eq_self hA hB, lowerCP_eq_self hA hC hD]

theorem normalizeCPs_fixed {t : List Nat} (h : ∀ d ∈ t, normCP d = d ∧ keepCP d = true) :
    normalizeCPs t = t := by
  unfold normalizeCPs
  rw [List.map_congr_left (fun d hd => (h d hd).1), show List.map (fun d : Nat => d) t = t
    from List.map_id t, List.filter_eq_self.mpr (fun d hd => (h d hd).2)]

/-- C4 counterexample: the claim says every remaining Latin letter is
deleted by normalization, but the regexp class [^0-9a-zа-яё] keeps ASCII
lowercase Latin letters: on the single letter s (code 115) the code keeps
it while the claimed characterization deletes it. -/
theorem C4_counterexample_latin_kept :
    normalizeCPs [115] = [115] ∧ normalizeClaimC4 [115] = [] := by decide

/-- C4 (amended): normalize performs exactly lowercase, translation of the
twelve Latin homoglyph letters to their Cyrillic counterparts, and
deletion of every character that is not an ASCII digit, not a lowercase
Latin letter and not a Cyrillic letter (а-я/ё) — spaces, hyphens, dots
and punctuation are removed, but Latin letters outside the homoglyph set
are kept (lowercased). -/
theorem C4_normalize_characterization (s : List Nat) :
    normalizeCPs s = normalizeAmendedC4 s := by
  unfold normalizeCPs normalizeAmendedC4
  refine congrArg (List.filter keepCP) (List.map_congr_left ?_)
  intro c _
  exact normCP_comm c

/-- C4 witness: the amended characterization evaluated on the mixed string
AB-12x (codes of A, B, hyphen, 1, 2, x). -/
theorem C4_normalize_characterization_witness :
    normalizeCPs [65, 66, 45, 49, 50, 120] = normalizeAmendedC4 [65, 66, 45, 49, 50, 120] :=
  C4_normalize_characterization [65, 66, 45, 49, 50, 120]

/-- C5: group-name normalization is idempotent, both on raw code-point
lists and on every string actually normalized by the service. -/
theorem C5_normalize_idempotent :
    (∀ s : List Nat, normalizeCPs (normalizeCPs s) = normalizeCPs s) ∧
    (∀ s : String, normalizeCPs (normalizeName s) = normalizeName s) := by
  have key : ∀ s : List Nat, normalizeCPs (normalizeCPs s) = normalizeCPs s := by
    intro s
    refine normalizeCPs_fixed ?_
    intro d hd
    unfold normalizeCPs at hd
    obtain ⟨hd1, hd2⟩ := List.mem_filter.mp hd
    obtain ⟨c, _, rfl⟩ := List.mem_map.mp hd1
    exact ⟨normCP_normCP c, hd2⟩
  exact ⟨key, fun s => key (codes s)⟩

/-- C2: every merged result contains only positive pair numbers and is
strictly increasing in pair number (hence deduplicated and sorted). -/
theorem C2_merge_result_invariants (db : DB) (group : String) (d weekday : Int)
    (parity : String) :
    (∀ e ∈ merge_by_group_date db group d weekday parity, 0 < e.pair_number) ∧
    (merge_by_group_date db group d weekday parity).Pairwise
      (fun a b => a.pair_number < b.pair_number) := by
  have hwf : ∀ kv ∈ (readOnce db group d).foldl (overlay group weekday)
      ((readWeekly db group weekday parity).foldl (overlay group weekday)
        ((readBase db group weekday parity).foldl
          (fun m r => upsertPair r.pair_number (entryOfBase r) m) [])),
      (kv.2).pair_number = kv.1 :=
    wf_foldl_overlay group weekday _
      (wf_foldl_overlay group weekday _ (wf_seed _ (by simp)))
  have hnd : (((readOnce db group d).foldl (overlay group weekday)
      ((readWeekly db group weekday parity).foldl (overlay group weekday)
        ((readBase db group weekday parity).foldl
          (fun m r => upsertPair r.pair_number (entryOfBase r) m) []))).map
      (fun kv => kv.1)).Nodup :=
    keysNodup_foldl_overlay group weekday _
      (keysNodup_foldl_overlay group weekday _ (keysNodup_seed _ (by simp)))
  constructor
  · intro e he
    obtain ⟨k, hk, hlk⟩ := mem_finalize.mp he
    have hpair := hwf (k, e) (mem_of_lookupPair hlk)
    simp only at hpair
    omega
  · exact pairwise_finalize hwf hnd

/-- C2 witness: the single entry of the precedence fixture has a positive
pair number, by the invariant theorem applied at that fixture. -/
theorem C2_merge_result_invariants_witness :
    0 < (⟨7, "g1", 1, 3, "09:00", "10:30", "Chemistry", "Ivanov", "101", "all"⟩ :
      Entry).pair_number :=
  (C2_merge_result_invariants dbPrecedence "g1" 19723 1 "odd").1 _ (by decide)

/-- C1: when a matching base row, a matching weekly edit and the (single)
matching once edit all occupy pair number p and each supplies a non-null
subject, the merged result at p carries the once edit's subject: the once
overlay runs last and overwrites the weekly and base values. -/
theorem C1_once_edit_precedence (db : DB) (group : String) (d weekday : Int)
    (parity : String) (p : Int) (s : String) (b : BaseRow) (w : WeeklyRow) (e : EditRow)
    (hb : b ∈ db.weekday_schedule) (hbm : baseMatches group weekday parity b = true)
    (hbp : b.pair_number = p) (hbs : truthy b.subject = true)
    (hw : w ∈ db.weekly_edits) (hwm : weeklyMatches group weekday parity w = true)
    (hwp : w.pair_number = p) (hws : truthy w.subject = true)
    (hpos : 0 < p)
    (honce : (readOnce db group d).filter (fun r => r.pair_number == p) = [e])
    (hd : e.deleted = false) (hsub : e.subject = some s) (hs : s ≠ "") :
    ∃ v ∈ merge_by_group_date db group d weekday parity,
      v.pair_number = p ∧ v.subject = s := by
  have htr : truthy e.subject = true := by
    rw [hsub]
    simpa [truthy] using hs
  obtain ⟨v, hlk, hsubj⟩ := lookup_foldl_overlay_last group weekday honce hd htr
    ((readWeekly db group weekday parity).foldl (overlay group weekday)
      ((readBase db group weekday parity).foldl
        (fun m r => upsertPair r.pair_number (entryOfBase r) m) []))
  refine ⟨v, mem_finalize.mpr ⟨p, hpos, hlk⟩, ?_, ?_⟩
  · have hwf : ∀ kv ∈ (readOnce db group d).foldl (overlay group weekday)
        ((readWeekly db group weekday parity).foldl (overlay group weekday)
          ((readBase db group weekday parity).foldl
            (fun m r => upsertPair r.pair_number (entryOfBase r) m) [])),
        (kv.2).pair_number = kv.1 :=
      wf_foldl_overlay group weekday _
        (wf_foldl_overlay group weekday _ (wf_seed _ (by simp)))
    exact hwf (p, v) (mem_of_lookupPair hlk)
  · rw [hsubj, hsub]
    rfl

/-- C1 witness: the precedence fixture, where the merged subject at pair 3
is the once edit's Chemistry. -/
theorem C1_once_edit_precedence_witness :
    ∃ v ∈ merge_by_group_date dbPrecedence "g1" 19723 1 "odd",
      v.pair_number = 3 ∧ v.subject = "Chemistry" :=
  C1_once_edit_precedence dbPrecedence "g1" 19723 1 "odd" 3 "Chemistry"
    ⟨7, "g1", 1, 3, some "09:00", some "10:30", some "Math", some "Ivanov", some "101",
      some "all"⟩
    ⟨"g1", 1, 3, "all", some "Physics", none, none, none, none, false⟩
    ⟨3, some "Chemistry", none, none, none, none, false⟩
    (by decide) (by decide) (by decide) (by decide)
    (by decide) (by decide) (by decide) (by decide)
    (by decide) (by decide) (by decide) (by decide) (by decide)

/-- C6: a non-deleted edit applied at an occupied pair number overwrites
each of subject, teacher, room, time_start, time_end exactly when the
edit supplies a truthy (non-null, non-empty) value for it, and every
omitted field keeps the prior tier's value; in particular a weekly edit
supplying only room 204 over a Math/Ivanov base session keeps subject
and teacher and changes room. -/
theorem C6_partial_field_override (g : String) (wd : Int) (m : List (Int × Entry))
    (e : EditRow) (prev : Entry) (hd : e.deleted = false)
    (hprev : lookupPair e.pair_number m = some prev) :
    lookupPair e.pair_number (overlay g wd m e) = some
      { prev with
        subject := if truthy e.subject then e.subject.getD "" else prev.subject
        teacher := if truthy e.teacher then e.teacher.getD "" else prev.teacher
        room := if truthy e.room then e.room.getD "" else prev.room
        time_start := if truthy e.time_start then e.time_start.getD "" else prev.time_start
        time_end := if truthy e.time_end then e.time_end.getD "" else prev.time_end } ∧
    merge_by_group_date dbPartial "g1" 19723 1 "odd" =
      [⟨7, "g1", 1, 3, "09:00", "10:30", "Math", "Ivanov", "204", "all"⟩] := by
  constructor
  · rw [lookupPair_overlay_self, overlayEntry_not_deleted g wd m e hd]
    simp only [hprev, Option.getD_some]
  · decide

/-- C6 witness: the override characterization applied to a room-only weekly
edit over a seeded base entry, together with the fixture computation. -/
theorem C6_partial_field_override_witness :
    lookupPair 3 (overlay "g1" 1
      [(3, ⟨7, "g1", 1, 3, "09:00", "10:30", "Math", "Ivanov", "101", "all"⟩)]
      ⟨3, none, none, some "204", none, none, false⟩) = some
      ⟨7, "g1", 1, 3, "09:00", "10:30", "Math", "Ivanov", "204", "all"⟩ ∧
    merge_by_group_date dbPartial "g1" 19723 1 "odd" =
      [⟨7, "g1", 1, 3, "09:00", "10:30", "Math", "Ivanov", "204", "all"⟩] :=
  C6_partial_field_override "g1" 1
    [(3, ⟨7, "g1", 1, 3, "09:00", "10:30", "Math", "Ivanov", "101", "all"⟩)]
    ⟨3, none, none, some "204", none, none, false⟩
    ⟨7, "g1", 1, 3, "09:00", "10:30", "Math", "Ivanov", "101", "all"⟩
    (by decide) (by decide)

/-- C7: a deleted edit applied at an occupied pair number blanks subject,
teacher and room, and overwrites time_start/time_end only when the edit
supplies truthy values for them; a deleted once edit with no time fields
preserves the base session's times. -/
theorem C7_deleted_edit_blanks (g : String) (wd : Int) (m : List (Int × Entry))
    (e : EditRow) (prev : Entry) (hd : e.deleted = true)
    (hprev : lookupPair e.pair_number m = some prev) :
    lookupPair e.pair_number (overlay g wd m e) = some
      { prev with
        subject := ""
        teacher := ""
        room := ""
        time_start := if truthy e.time_start then e.time_start.getD "" else prev.time_start
        time_end := if truthy e.time_end then e.time_end.getD "" else prev.time_end } ∧
    merge_by_group_date dbDeleted "g1" 19723 1 "odd" =
      [⟨7, "g1", 1, 3, "09:00", "10:30", "", "", "", "all"⟩] := by
  constructor
  · rw [lookupPair_overlay_self, overlayEntry_deleted g wd m e hd]
    simp only [hprev, Option.getD_some]
  · decide

/-- C7 witness: a deleted once edit with no time fields over a seeded base
entry keeps the base times and blanks the text fields, together with the
fixture computation. -/
theorem C7_deleted_edit_blanks_witness :
    lookupPair 3 (overlay "g1" 1
      [(3, ⟨7, "g1", 1, 3, "09:00", "10:30", "Math", "Ivanov", "101", "all"⟩)]
      ⟨3, none, none, none, none, none, true⟩) = some
      ⟨7, "g1", 1, 3, "09:00", "10:30", "", "", "", "all"⟩ ∧
    merge_by_group_date dbDeleted "g1" 19723 1 "odd" =
      [⟨7, "g1", 1, 3, "09:00", "10:30", "", "", "", "all"⟩] :=
  C7_deleted_edit_blanks "g1" 1
    [(3, ⟨7, "g1", 1, 3, "09:00", "10:30", "Math", "Ivanov", "101", "all"⟩)]
    ⟨3, none, none, none, none, none, true⟩
    ⟨7, "g1", 1, 3, "09:00", "10:30", "Math", "Ivanov", "101", "all"⟩
    (by decide) (by decide)

/-- C10: every weekly or once edit row matching the query with a positive
pair number leaves an entry at that pair number in the merged result —
even a deleted edit at a vacant slot, which synthesizes an id 0
placeholder with blank text fields (and the edit's times if supplied)
rather than leaving the slot absent, as the vacant-slot fixture shows. -/
theorem C10_edit_slots_survive (db : DB) (group : String) (d weekday : Int)
    (parity : String) (e : EditRow) (hpos : 0 < e.pair_number)
    (he : e ∈ readWeekly db group weekday parity ∨ e ∈ readOnce db group d) :
    (∃ v ∈ merge_by_group_date db group d weekday parity,
      v.pair_number = e.pair_number) ∧
    merge_by_group_date dbVacant "g1" 19723 1 "odd" =
      [⟨0, "g1", 1, 2, "09:00", "10:30", "", "", "", "all"⟩] := by
  have hwf : ∀ kv ∈ (readOnce db group d).foldl (overlay group weekday)
      ((readWeekly db group weekday parity).foldl (overlay group weekday)
        ((readBase db group weekday parity).foldl
          (fun m r => upsertPair r.pair_number (entryOfBase r) m) [])),
      (kv.2).pair_number = kv.1 :=
    wf_foldl_overlay group weekday _
      (wf_foldl_overlay group weekday _ (wf_seed _ (by simp)))
  constructor
  · have hsome : (lookupPair e.pair_number ((readOnce db group d).foldl
        (overlay group weekday)
        ((readWeekly db group weekday parity).foldl (overlay group weekday)
          ((readBase db group weekday parity).foldl
            (fun m r => upsertPair r.pair_number (entryOfBase r) m) [])))).isSome := by
      rcases he with hw | ho
      · exact lookup_foldl_overlay_isSome group weekday (readOnce db group d) _
          (lookup_foldl_overlay_isSome_of_mem group weekday hw _)
      · exact lookup_foldl_overlay_isSome_of_mem group weekday ho _
    obtain ⟨v, hv⟩ := Option.isSome_iff_exists.mp hsome
    exact ⟨v, mem_finalize.mpr ⟨e.pair_number, hpos, hv⟩,
      hwf (e.pair_number, v) (mem_of_lookupPair hv)⟩
  · decide

/-- C10 witness: the vacant-slot fixture, where the deleted once edit at
pair 2 still yields a visible entry at pair 2. -/
theorem C10_edit_slots_survive_witness :
    (∃ v ∈ merge_by_group_date dbVacant "g1" 19723 1 "odd", v.pair_number = 2) ∧
    merge_by_group_date dbVacant "g1" 19723 1 "odd" =
      [⟨0, "g1", 1, 2, "09:00", "10:30", "", "", "", "all"⟩] :=
  C10_edit_slots_survive dbVacant "g1" 19723 1 "odd"
    ⟨2, none, none, none, some "09:00", some "10:30", true⟩
    (by decide) (Or.inr (by decide))

/-- C3: with a well-formed anchor the parity is odd exactly when the
floor week offset from the anchor is even (so anchor 2024-01-01 gives
odd, even, odd on 2024-01-01/08/15), and with an absent or malformed
anchor the resolver falls back, without failing, to ISO week parity
(even exactly when the ISO week number is even). -/
theorem C3_parity_resolution :
    (∀ z a : Int, ∀ s : String, parseISODate s = some a →
      (parityFor (some s) z = "odd" ↔ ((z - a).fdiv 7).fmod 2 = 0)) ∧
    parityFor (some "2024-01-01") 19723 = "odd" ∧
    parityFor (some "2024-01-01") 19730 = "even" ∧
    parityFor (some "2024-01-01") 19737 = "odd" ∧
    (∀ z : Int, ∀ s : String, parseISODate s = none →
      parityFor (some s) z = isoParity z) ∧
    (∀ z : Int, parityFor none z = isoParity z) ∧
    (∀ z : Int, isoParity z = "even" ↔ (isoWeekNumber z).emod 2 = 0) := by
  refine ⟨?_, by decide, by decide, by decide, ?_, ?_, ?_⟩
  · intro z a s h
    have hne : s ≠ "" := by
      intro heq
      rw [heq, show parseISODate "" = none from rfl] at h
      exact Option.noConfusion h
    have ht : truthy (some s) = true := by simp [truthy, hne]
    rw [parityFor, if_pos ht]
    simp only [Option.getD_some, h]
    by_cases hcond : ((z - a).fdiv 7).fmod 2 = 0
    · simp [hcond]
    · simp [hcond]
  · intro z s h
    rw [parityFor]
    by_cases ht : truthy (some s) = true
    · rw [if_pos ht]
      simp only [Option.getD_some, h]
    · rw [if_neg (by simpa using ht)]
  · intro z
    rfl
  · intro z
    rw [isoParity]
    by_cases hcond : (isoWeekNumber z).emod 2 = 0
    · simp [hcond]
    · simp [hcond]

/-- C3 witness: the anchored iff at 2024-01-15 with anchor 2024-01-01, and
the malformed-anchor fallback on a ten-character non-date. -/
theorem C3_parity_resolution_witness :
    (parityFor (some "2024-01-01") 19737 = "odd" ↔
      (((19737 : Int) - 19723).fdiv 7).fmod 2 = 0) ∧
    parityFor (some "not-a-date") 19723 = isoParity 19723 :=
  ⟨C3_parity_resolution.1 19737 19723 "2024-01-01" (by decide),
   C3_parity_resolution.2.2.2.2.1 19723 "not-a-date" (by decide)⟩

/-- C9: week_overview fails with the parameter-validation error exactly
when group and teacher are not supplied exclusively (both or neither),
the check preceding the date parse; when exactly one is supplied and the
monday date parses, it returns exactly seven entries whose dates are the
monday through monday+6, in order.  The supplied parameters are none or
non-empty, as the HTTP layer enforces min_length 1. -/
theorem C9_week_overview (db : DB) (anchor : Option String) (group teacher : Option String)
    (monday : String)
    (hg : group = none ∨ ∃ g, group = some g ∧ g ≠ "")
    (ht : teacher = none ∨ ∃ t, teacher = some t ∧ t ≠ "") :
    (week_overview db anchor group teacher monday = Except.error ApiError.badParams ↔
      (group.isSome ↔ teacher.isSome)) ∧
    (∀ m : Int, ¬(group.isSome ↔ teacher.isSome) → parseISODate monday = some m →
      ∃ out, week_overview db anchor group teacher monday = Except.ok out ∧
        out.length = 7 ∧
        out.map (fun x => x.1) =
          [isoformat m, isoformat (m + 1), isoformat (m + 2), isoformat (m + 3),
           isoformat (m + 4), isoformat (m + 5), isoformat (m + 6)]) := by
  have htg : truthy group = group.isSome := by
    rcases hg with rfl | ⟨g, rfl, hne⟩
    · rfl
    · simp [truthy, hne]
  have htt : truthy teacher = teacher.isSome := by
    rcases ht with rfl | ⟨t, rfl, hne⟩
    · rfl
    · simp [truthy, hne]
  constructor
  · have key : week_overview db anchor group teacher monday = Except.error ApiError.badParams ↔
        truthy group = truthy teacher := by
      constructor
      · intro h
        by_contra hne
        rw [week_overview, if_neg (by simpa using hne)] at h
        cases hp : parseISODate monday <;> simp only [hp] at h <;> simp at h
      · intro h
        rw [week_overview, if_pos (by simpa using h)]
    rw [key, htg, htt]
    cases group.isSome <;> cases teacher.isSome <;> simp
  · intro m hne hp
    have hbool : (truthy group == truthy teacher) = false := by
      rw [htg, htt]
      cases hgs : group.isSome <;> cases hts : teacher.isSome <;> simp_all
    rw [week_overview, if_neg (by simp [hbool])]
    simp only [hp]
    refine ⟨_, rfl, ?_, ?_⟩
    · rw [List.length_map, List.length_range]
    · rw [show List.range 7 = [0, 1, 2, 3, 4, 5, 6] from rfl]
      simp only [List.map_cons, List.map_nil, apply_ite (fun p : String × Int => p.1),
        ite_self, List.cons.injEq, and_true]
      norm_num

/-- C9 witness: both supplied gives the validation error, and group-only
with monday 2024-01-01 (day 19723) gives the seven consecutive dates. -/
theorem C9_week_overview_witness :
    (week_overview dbEmpty none (some "g1") (some "t1") "2024-01-01" =
      Except.error ApiError.badParams) ∧
    ∃ out, week_overview dbEmpty none (some "g1") none "2024-01-01" = Except.ok out ∧
      out.length = 7 ∧
      out.map (fun x => x.1) =
        [isoformat 19723, isoformat (19723 + 1), isoformat (19723 + 2),
         isoformat (19723 + 3), isoformat (19723 + 4), isoformat (19723 + 5),
         isoformat (19723 + 6)] :=
  ⟨(C9_week_overview dbEmpty none (some "g1") (some "t1") "2024-01-01"
      (Or.inr ⟨"g1", rfl, by decide⟩) (Or.inr ⟨"t1", rfl, by decide⟩)).1.mpr (by simp),
   (C9_week_overview dbEmpty none (some "g1") none "2024-01-01"
      (Or.inr ⟨"g1", rfl, by decide⟩) (Or.inl rfl)).2 19723 (by simp) (by decide)⟩

theorem codesLe_total : ∀ l1 l2 : List Nat, codesLe l1 l2 = false → codesLe l2 l1 = true := by
  intro l1
  induction l1 with
  | nil => intro l2 h; simp [codesLe] at h
  | cons a l ih =>
    intro l2 h
    cases l2 with
    | nil => simp [codesLe]
    | cons b m =>
      simp only [codesLe] at h ⊢
      by_cases hab : a < b
      · rw [if_pos hab] at h
        exact absurd h (by simp)
      · rw [if_neg hab] at h
        by_cases hba : b < a
        · rw [if_pos hba]
        · rw [if_neg hba] at h
          rw [if_neg hba, if_neg hab]
          exact ih m h

theorem codesLe_trans : ∀ l1 l2 l3 : List Nat,
    codesLe l1 l2 = true → codesLe l2 l3 = true → codesLe l1 l3 = true := by
  intro l1
  induction l1 with
  | nil => intro l2 l3 h1 h2; simp [codesLe]
  | cons a l ih =>
    intro l2 l3 h1 h2
    cases l2 with
    | nil => simp [codesLe] at h1
    | cons b m =>
      cases l3 with
      | nil => simp [codesLe] at h2
      | cons c k =>
        simp only [codesLe] at h1 h2 ⊢
        by_cases hab : a < b
        · by_cases hbc : b < c
          · rw [if_pos (show a < c by omega)]
          · by_cases hcb : c < b
            · rw [if_neg hbc, if_pos hcb] at h2
              exact absurd h2 (by simp)
            · rw [if_pos (show a < c by omega)]
        · by_cases hba : b < a
          · rw [if_neg hab, if_pos hba] at h1
            exact absurd h1 (by simp)
          · rw [if_neg hab, if_neg hba] at h1
            by_cases hbc : b < c
            · rw [if_pos (show a < c by omega)]
            · by_cases hcb : c < b
              · rw [if_neg hbc, if_pos hcb] at h2
                exact absurd h2 (by simp)
              · rw [if_neg hbc, if_neg hcb] at h2
                rw [if_neg (show ¬ a < c by omega), if_neg (show ¬ c < a by omega)]
                exact ih m k h1 h2

theorem entryKeyLe_total : ∀ x y : Entry, entryKeyLe x y = false → entryKeyLe y x = true := by
  intro x y h
  simp only [entryKeyLe, Bool.or_eq_false_iff, Bool.and_eq_false_iff,
    decide_eq_false_iff_not, beq_eq_false_iff_ne, ne_eq] at h
  obtain ⟨h1, h2⟩ := h
  simp only [entryKeyLe, Bool.or_eq_true, Bool.and_eq_true, decide_eq_true_eq, beq_iff_eq]
  by_cases heq : x.pair_number = y.pair_number
  · rcases h2 with h2 | h2
    · exact absurd heq h2
    · exact Or.inr ⟨heq.symm, codesLe_total _ _ h2⟩
  · exact Or.inl (by omega)

theorem entryKeyLe_trans : ∀ x y z : Entry, entryKeyLe x y = true → entryKeyLe y z = true →
    entryKeyLe x z = true := by
  intro x y z h1 h2
  simp only [entryKeyLe, Bool.or_eq_true, Bool.and_eq_true, decide_eq_true_eq,
    beq_iff_eq] at h1 h2 ⊢
  rcases h1 with h1 | ⟨h1e, h1c⟩
  · rcases h2 with h2 | ⟨h2e, h2c⟩
    · exact Or.inl (by omega)
    · exact Or.inl (by omega)
  · rcases h2 with h2 | ⟨h2e, h2c⟩
    · exact Or.inl (by omega)
    · exact Or.inr ⟨by omega, codesLe_trans _ _ _ h1c h2c⟩

/-- C8: every session returned by the teacher view carries a resolved
teacher equal, after stripping and lowercasing, to the requested one
(the post-merge filter), the result is sorted by (pair_number,
time_start), and a base Ivanov session reassigned to Petrov by a once
edit appears in the Petrov result and not in the Ivanov result. -/
theorem C8_teacher_view_post_merge (db : DB) (anchor : Option String)
    (teacher dateStr : String) (res : List Entry)
    (hres : get_schedule_by_teacher db anchor teacher dateStr = Except.ok res) :
    (∀ e ∈ res, pyStripLower e.teacher = pyStripLower teacher) ∧
    res.Pairwise (fun a b => entryKeyLe a b = true) ∧
    get_schedule_by_teacher dbTeacher none "Petrov" "2024-01-01" =
      Except.ok [⟨7, "g1", 1, 1, "09:00", "10:30", "Math", "Petrov", "101", "all"⟩] ∧
    get_schedule_by_teacher dbTeacher none "Ivanov" "2024-01-01" = Except.ok [] := by
  refine ⟨?_, ?_, by rfl, by rfl⟩ <;>
    rw [get_schedule_by_teacher] at hres <;>
    cases hp : parseISODate dateStr <;> simp only [hp] at hres
  · simp at hres
  · by_cases htn : (pyStripLower teacher == ([] : List Nat)) = true
    · rw [if_pos htn] at hres
      obtain rfl : res = [] := (Except.ok.inj hres).symm
      simp
    · rw [if_neg htn] at hres
      obtain rfl := (Except.ok.inj hres).symm
      intro e he
      have hmem := (perm_sortLe entryKeyLe _).mem_iff.mp he
      have := (List.mem_filter.mp hmem).2
      simpa [beq_iff_eq] using this
  · simp at hres
  · by_cases htn : (pyStripLower teacher == ([] : List Nat)) = true
    · rw [if_pos htn] at hres
      obtain rfl : res = [] := (Except.ok.inj hres).symm
      simp
    · rw [if_neg htn] at hres
      obtain rfl := (Except.ok.inj hres).symm
      exact pairwise_sortLe entryKeyLe_total entryKeyLe_trans _

/-- C8 witness: the reassigned session is returned for Petrov with a
matching normalized teacher, and the Ivanov result excludes it. -/
theorem C8_teacher_view_post_merge_witness :
    pyStripLower (⟨7, "g1", 1, 1, "09:00", "10:30", "Math", "Petrov", "101", "all"⟩ :
      Entry).teacher = pyStripLower "Petrov" ∧
    get_schedule_by_teacher dbTeacher none "Ivanov" "2024-01-01" = Except.ok [] :=
  ⟨(C8_teacher_view_post_merge dbTeacher none "Petrov" "2024-01-01"
      [⟨7, "g1", 1, 1, "09:00", "10:30", "Math", "Petrov", "101", "all"⟩] (by rfl)).1 _
      (by decide),
   (C8_teacher_view_post_merge dbTeacher none "Petrov" "2024-01-01"
      [⟨7, "g1", 1, 1, "09:00", "10:30", "Math", "Petrov", "101", "all"⟩] (by rfl)).2.2.2⟩
